import Mathlib

/-!
Verification of the Telebirr credit calculator's repayment engine.

The engine (`CreditService` in the backend) is embedded shallowly:
JavaScript numbers become `ℚ`, calendar dates become `ℤ` day numbers
(date-fns `addDays` is `+`, `differenceInCalendarDays` is subtraction,
`isAfter` is `<`), thrown `BadRequestException`s become `Except CalcError`,
and `Math.round((v + EPSILON) * 100) / 100` becomes exact half-up rounding
to two decimals over `ℚ` (the epsilon only compensates binary float error).
`Array.prototype.sort` with comparator `a.amount - b.amount` is a stable
ascending sort, embedded as a stable insertion sort.
-/

namespace TelebirrCredit

/-- Half-up rounding to 2 decimals: `Math.round(v * 100) / 100` on exact
rationals (`Math.round x = ⌊x + 1/2⌋`). -/
def round2 (x : ℚ) : ℚ := (⌊x * 100 + 1/2⌋ : ℚ) / 100

/-- Range-priced credit product (`RangeCreditConfig`). -/
structure RangeCreditConfig where
  type : String
  minLoan : ℚ
  maxLoan : ℚ
  paymentPeriodDays : ℤ
  facilitationFeePercent : ℚ
  dailyFeePercent : ℚ
  dailyFeeMaxPercent : Option ℚ
  penaltyPercent : ℚ
  deriving DecidableEq, Repr

/-- One tier of a tiered product (`TieredCreditConfig['amounts'][number]`). -/
structure Tier where
  amount : ℚ
  facilitationFeePercent : ℚ
  dailyFeePercent : ℚ
  penaltyPercent : ℚ
  deriving DecidableEq, Repr

/-- Tiered credit product (`TieredCreditConfig`). -/
structure TieredCreditConfig where
  type : String
  amounts : List Tier
  deriving DecidableEq, Repr

/-- The catalog's tagged union of product shapes (`CreditConfig`);
the code discriminates by presence of `minLoan`/`maxLoan`. -/
inductive CreditConfig where
  | range (c : RangeCreditConfig)
  | tiered (c : TieredCreditConfig)
  deriving DecidableEq, Repr

/-- The `type` field of either product shape. -/
def CreditConfig.type : CreditConfig → String
  | .range c => c.type
  | .tiered c => c.type

/-- `TierRange` as built by `buildTierRanges`. -/
structure TierRange where
  tier : Tier
  min : ℚ
  maxExclusive : Option ℚ
  deriving DecidableEq, Repr

/-- `CreditCalculationInput` after number conversion and date parsing. -/
structure CreditCalculationInput where
  creditType : String
  loanAmount : ℚ
  startDate : ℤ
  endDate : ℤ
  deriving DecidableEq, Repr

/-- One `RepaymentScheduleLine`. -/
structure RepaymentScheduleLine where
  date : ℤ
  outstandingPrincipal : ℚ
  dailyFee : ℚ
  penaltyFee : ℚ
  subtotal : ℚ
  deriving DecidableEq, Repr

/-- `CreditCalculationResult`. -/
structure CreditCalculationResult where
  creditType : String
  loanAmount : ℚ
  loanPeriodDays : ℕ
  facilitationFee : ℚ
  dailyFee : ℚ
  penaltyFee : ℚ
  totalRepayment : ℚ
  schedule : List RepaymentScheduleLine
  deriving DecidableEq, Repr

/-- The `BadRequestException`s thrown by `calculate`, tagged. -/
inductive CalcError where
  | unsupportedCreditType
  | invalidAmount
  | amountTooLarge
  | invalidDateRange
  | amountOutOfRange
  | noMatchingTier
  deriving DecidableEq, Repr

/-- `MAX_LOAN_AMOUNT = 6_000_000`. -/
def MAX_LOAN_AMOUNT : ℚ := 6000000

/-- `TIERED_PAYMENT_PERIOD_MAP` lookup: `'Mela Monthly' → 30`,
`'50 Days Mela' → 50`, `Endekise → 30`, anything else absent. -/
def tieredPaymentPeriod (t : String) : Option ℤ :=
  if t = "Mela Monthly" then some 30
  else if t = "50 Days Mela" then some 50
  else if t = "Endekise" then some 30
  else none

/-- The unrounded fee charged on one day of the range-credit loop:
`min(baseDailyFee, remainingCap)` where `remainingCap` is
`max(cap − accumulated, 0)` under a cap and `+∞` (so just `base`) without. -/
def dayFeeRaw (base : ℚ) (cap : Option ℚ) (acc : ℚ) : ℚ :=
  match cap with
  | some c => min base (max (c - acc) 0)
  | none => base

/-- The per-day loop of `calculateForRangeCredit` (lines 99–109): emits the
rounded fee for each day while accumulating the unrounded fee. -/
def rangeFeeLoop (base : ℚ) (cap : Option ℚ) : ℕ → ℚ → List ℚ
  | 0, _ => []
  | n + 1, acc =>
    if base = 0 then 0 :: rangeFeeLoop base cap n acc
    else round2 (dayFeeRaw base cap acc) :: rangeFeeLoop base cap n (acc + dayFeeRaw base cap acc)

/-- `baseDailyFee` of `calculateForRangeCredit`: zero unless the percent is
strictly positive. -/
def rangeBaseDailyFee (loanAmount : ℚ) (credit : RangeCreditConfig) : ℚ :=
  if 0 < credit.dailyFeePercent then loanAmount * credit.dailyFeePercent / 100 else 0

/-- `dailyFeeCap` of `calculateForRangeCredit`: the JS conditional
`credit.dailyFeeMaxPercent ? amount * p / 100 : null` treats a present `0`
as falsy, leaving the loop uncapped. -/
def rangeDailyFeeCap (loanAmount : ℚ) (credit : RangeCreditConfig) : Option ℚ :=
  match credit.dailyFeeMaxPercent with
  | some p => if p = 0 then none else some (loanAmount * p / 100)
  | none => none

/-- The `dailyFees` array computed by `calculateForRangeCredit`. -/
def rangeDailyFees (loanAmount : ℚ) (credit : RangeCreditConfig) (loanPeriodDays : ℕ) : List ℚ :=
  rangeFeeLoop (rangeBaseDailyFee loanAmount credit) (rangeDailyFeeCap loanAmount credit) loanPeriodDays 0

/-- `computePenaltyFee` (lines 189–209). -/
def computePenaltyFee (loanAmount : ℚ) (startDate endDate : ℤ) (allowedPeriodDays : ℤ)
    (penaltyPercent : ℚ) : ℚ :=
  if ¬ (startDate + (allowedPeriodDays - 1) < endDate) then 0
  else if endDate - (startDate + (allowedPeriodDays - 1)) ≤ 0 then 0
  else round2 (loanAmount * penaltyPercent * (endDate - (startDate + (allowedPeriodDays - 1))) / 100)

/-- The per-index body of `buildSchedule`'s `Array.from`, with the two
running totals threaded explicitly (they are updated before the line's
`subtotal` is taken, as in the source). -/
def buildScheduleAux (loanAmount : ℚ) (startDate : ℤ) (allowedPeriodDays : ℤ)
    (dailyFees : List ℚ) (penaltyPerDay : ℚ) :
    ℕ → ℕ → ℚ → ℚ → List RepaymentScheduleLine
  | 0, _, _, _ => []
  | n + 1, index, dRun, pRun =>
    { date := startDate + (index : ℤ)
      outstandingPrincipal := round2 loanAmount
      dailyFee := round2 (dailyFees.getD index 0)
      penaltyFee := round2 (if allowedPeriodDays ≤ (index : ℤ) then penaltyPerDay else 0)
      subtotal := round2 (loanAmount + (dRun + dailyFees.getD index 0) +
        (pRun + if allowedPeriodDays ≤ (index : ℤ) then penaltyPerDay else 0)) } ::
    buildScheduleAux loanAmount startDate allowedPeriodDays dailyFees penaltyPerDay n (index + 1)
      (dRun + dailyFees.getD index 0)
      (pRun + if allowedPeriodDays ≤ (index : ℤ) then penaltyPerDay else 0)

/-- `buildSchedule` (lines 156–187). -/
def buildSchedule (loanAmount : ℚ) (startDate : ℤ) (loanPeriodDays : ℕ)
    (allowedPeriodDays : ℤ) (dailyFees : List ℚ) (penaltyFeeTotal : ℚ) :
    List RepaymentScheduleLine :=
  buildScheduleAux loanAmount startDate allowedPeriodDays dailyFees
    (if 0 < max ((loanPeriodDays : ℤ) - allowedPeriodDays) 0 then
      penaltyFeeTotal / ((max ((loanPeriodDays : ℤ) - allowedPeriodDays) 0 : ℤ) : ℚ)
    else 0)
    loanPeriodDays 0 0 0

/-- `calculateForRangeCredit` (lines 85–125). -/
def calculateForRangeCredit (loanAmount : ℚ) (startDate endDate : ℤ) (loanPeriodDays : ℕ)
    (credit : RangeCreditConfig) : CreditCalculationResult :=
  { creditType := credit.type
    loanAmount := loanAmount
    loanPeriodDays := loanPeriodDays
    facilitationFee := round2 (loanAmount * credit.facilitationFeePercent / 100)
    dailyFee := round2 (rangeDailyFees loanAmount credit loanPeriodDays).sum
    penaltyFee := computePenaltyFee loanAmount startDate endDate credit.paymentPeriodDays
      credit.penaltyPercent
    totalRepayment := round2 (loanAmount + round2 (loanAmount * credit.facilitationFeePercent / 100) +
      round2 (rangeDailyFees loanAmount credit loanPeriodDays).sum +
      computePenaltyFee loanAmount startDate endDate credit.paymentPeriodDays credit.penaltyPercent)
    schedule := buildSchedule loanAmount startDate loanPeriodDays credit.paymentPeriodDays
      (rangeDailyFees loanAmount credit loanPeriodDays)
      (computePenaltyFee loanAmount startDate endDate credit.paymentPeriodDays credit.penaltyPercent) }

/-- `calculateForTieredCredit` (lines 127–154): note the total daily fee is
`round2 (baseDailyFee * loanPeriodDays)` on the unrounded base, while the
schedule's per-day array holds `round2 baseDailyFee` entries. -/
def calculateForTieredCredit (loanAmount : ℚ) (startDate endDate : ℤ) (loanPeriodDays : ℕ)
    (credit : TieredCreditConfig) (tier : Tier) : CreditCalculationResult :=
  { creditType := credit.type
    loanAmount := loanAmount
    loanPeriodDays := loanPeriodDays
    facilitationFee := round2 (loanAmount * tier.facilitationFeePercent / 100)
    dailyFee := round2 (loanAmount * tier.dailyFeePercent / 100 * (loanPeriodDays : ℚ))
    penaltyFee := computePenaltyFee loanAmount startDate endDate
      ((tieredPaymentPeriod credit.type).getD (loanPeriodDays : ℤ)) tier.penaltyPercent
    totalRepayment := round2 (loanAmount + round2 (loanAmount * tier.facilitationFeePercent / 100) +
      round2 (loanAmount * tier.dailyFeePercent / 100 * (loanPeriodDays : ℚ)) +
      computePenaltyFee loanAmount startDate endDate
        ((tieredPaymentPeriod credit.type).getD (loanPeriodDays : ℤ)) tier.penaltyPercent)
    schedule := buildSchedule loanAmount startDate loanPeriodDays
      ((tieredPaymentPeriod credit.type).getD (loanPeriodDays : ℤ))
      (List.replicate loanPeriodDays (round2 (loanAmount * tier.dailyFeePercent / 100)))
      (computePenaltyFee loanAmount startDate endDate
        ((tieredPaymentPeriod credit.type).getD (loanPeriodDays : ℤ)) tier.penaltyPercent) }

/-- Stable insertion of one tier into an already ascending list: the new
element goes after every existing element of smaller **or equal** amount,
matching a stable ascending sort on ties. -/
def insertTier (t : Tier) : List Tier → List Tier
  | [] => [t]
  | u :: us => if u.amount ≤ t.amount then u :: insertTier t us else t :: u :: us

/-- Stable ascending sort by `amount`, the semantics of
`[...credit.amounts].sort((a, b) => a.amount - b.amount)`. -/
def sortTiers (l : List Tier) : List Tier :=
  l.foldl (fun acc t => insertTier t acc) []

/-- The `sorted.map((tier, index) => ...)` of `buildTierRanges`: each tier is
paired with the next sorted tier's amount as exclusive upper bound. -/
def buildTierRangesAux : List Tier → List TierRange
  | [] => []
  | [t] => [{ tier := t, min := t.amount, maxExclusive := none }]
  | t :: u :: rest =>
    { tier := t, min := t.amount, maxExclusive := some u.amount } :: buildTierRangesAux (u :: rest)

/-- `buildTierRanges` (lines 217–227). -/
def buildTierRanges (credit : TieredCreditConfig) : List TierRange :=
  buildTierRangesAux (sortTiers credit.amounts)

/-- The predicate of `findTierRangeForAmount`'s `.find(...)`. -/
def tierRangeMatches (amount : ℚ) (r : TierRange) : Bool :=
  decide (r.min ≤ amount) &&
    match r.maxExclusive with
    | none => true
    | some m => decide (amount < m)

/-- `findTierRangeForAmount` (lines 229–231). -/
def findTierRangeForAmount (credit : TieredCreditConfig) (amount : ℚ) : Option TierRange :=
  (buildTierRanges credit).find? (tierRangeMatches amount)

/-- `calculate` (lines 36–83). Validation in source order; the dead
defensive `loanPeriodDays ≤ 0` check is kept. -/
def calculate (credits : List CreditConfig) (input : CreditCalculationInput) :
    Except CalcError CreditCalculationResult :=
  match credits.find? (fun c => c.type == input.creditType) with
  | none => .error .unsupportedCreditType
  | some creditConfig =>
    if input.loanAmount ≤ 0 then .error .invalidAmount
    else if MAX_LOAN_AMOUNT < input.loanAmount then .error .amountTooLarge
    else if input.endDate < input.startDate then .error .invalidDateRange
    else if input.endDate - input.startDate + 1 ≤ 0 then .error .invalidDateRange
    else
      match creditConfig with
      | .range credit =>
        if input.loanAmount < credit.minLoan ∨ credit.maxLoan < input.loanAmount then
          .error .amountOutOfRange
        else
          .ok (calculateForRangeCredit input.loanAmount input.startDate input.endDate
            (input.endDate - input.startDate + 1).toNat credit)
      | .tiered credit =>
        match findTierRangeForAmount credit input.loanAmount with
        | none => .error .noMatchingTier
        | some matched =>
          .ok (calculateForTieredCredit input.loanAmount input.startDate input.endDate
            (input.endDate - input.startDate + 1).toNat credit matched.tier)

/-! ### Basic rounding lemmas -/

theorem round2_zero : round2 0 = 0 := by
  unfold round2
  norm_num

theorem round2_mono {x y : ℚ} (h : x ≤ y) : round2 x ≤ round2 y := by
  unfold round2
  have hf : (⌊x * 100 + 1/2⌋ : ℤ) ≤ ⌊y * 100 + 1/2⌋ := by
    apply Int.floor_le_floor
    linarith
  have h2 : ((⌊x * 100 + 1/2⌋ : ℤ) : ℚ) ≤ ((⌊y * 100 + 1/2⌋ : ℤ) : ℚ) := by exact_mod_cast hf
  linarith

theorem round2_le (x : ℚ) : round2 x ≤ x + 1/200 := by
  unfold round2
  have h := Int.floor_le (x * 100 + 1/2)
  linarith

theorem round2_nonneg {x : ℚ} (h : 0 ≤ x) : 0 ≤ round2 x := by
  have h2 := round2_mono h
  rw [round2_zero] at h2
  exact h2

theorem round2_idem (x : ℚ) : round2 (round2 x) = round2 x := by
  unfold round2
  congr 1
  have h : (⌊x * 100 + 1/2⌋ : ℚ) / 100 * 100 + 1/2 = 1/2 + (⌊x * 100 + 1/2⌋ : ℤ) := by
    ring
  rw [h, Int.floor_add_int]
  norm_num

/-! ### Inversion of `calculate` on success -/

theorem calculate_ok_elim {credits : List CreditConfig} {input : CreditCalculationInput}
    {r : CreditCalculationResult} (h : calculate credits input = .ok r) :
    ∃ c, credits.find? (fun cc => cc.type == input.creditType) = some c ∧
      0 < input.loanAmount ∧ input.loanAmount ≤ MAX_LOAN_AMOUNT ∧
      input.startDate ≤ input.endDate ∧
      ((∃ rc, c = CreditConfig.range rc ∧ rc.minLoan ≤ input.loanAmount ∧
          input.loanAmount ≤ rc.maxLoan ∧
          r = calculateForRangeCredit input.loanAmount input.startDate input.endDate
            (input.endDate - input.startDate + 1).toNat rc) ∨
       (∃ tc rng, c = CreditConfig.tiered tc ∧
          findTierRangeForAmount tc input.loanAmount = some rng ∧
          r = calculateForTieredCredit input.loanAmount input.startDate input.endDate
            (input.endDate - input.startDate + 1).toNat tc rng.tier)) := by
  unfold calculate at h
  split at h
  · exact absurd h (by simp)
  case _ creditConfig hfind =>
    split_ifs at h with h1 h2 h3 h4
    refine ⟨creditConfig, hfind, by linarith [not_le.mp h1], not_lt.mp h2, not_lt.mp h3, ?_⟩
    split at h
    case _ rc =>
      split_ifs at h with h5
      push_neg at h5
      exact Or.inl ⟨rc, rfl, h5.1, h5.2, (Except.ok.injEq _ _).mp h.symm⟩
    case _ tc =>
      split at h
      · exact absurd h (by simp)
      case _ rng hrng =>
        exact Or.inr ⟨tc, rng, rfl, hrng, (Except.ok.injEq _ _).mp h.symm⟩

/-! ### Demo fixtures used by witnesses -/

/-- A range product matching the spec's example scenario A. -/
def rangeDemo : RangeCreditConfig :=
  { type := "RangeDemo", minLoan := 100, maxLoan := 10000, paymentPeriodDays := 30,
    facilitationFeePercent := 5, dailyFeePercent := 1, dailyFeeMaxPercent := none,
    penaltyPercent := 2 }

/-- A request for 1000 over the 5 days 0..4. -/
def rangeDemoInput : CreditCalculationInput :=
  { creditType := "RangeDemo", loanAmount := 1000, startDate := 0, endDate := 4 }

/-- The result the engine produces for `rangeDemoInput`. -/
def rangeDemoResult : CreditCalculationResult :=
  calculateForRangeCredit 1000 0 4 5 rangeDemo

/-- C1: every accepted request's result satisfies
`totalRepayment = round2 (loanAmount + facilitationFee + dailyFee + penaltyFee)`
over the (already rounded) components of the same result. -/
theorem totalRepayment_identity (credits : List CreditConfig) (input : CreditCalculationInput)
    (r : CreditCalculationResult) (h : calculate credits input = .ok r) :
    r.totalRepayment = round2 (r.loanAmount + r.facilitationFee + r.dailyFee + r.penaltyFee) := by
  obtain ⟨c, -, -, -, -, hcase⟩ := calculate_ok_elim h
  rcases hcase with ⟨rc, -, -, -, hr⟩ | ⟨tc, rng, -, -, hr⟩ <;> subst hr <;> rfl

/-- C1 witness: the identity holds on a concrete accepted request. -/
theorem totalRepayment_identity_witness :
    calculate [CreditConfig.range rangeDemo] rangeDemoInput = .ok rangeDemoResult ∧
    rangeDemoResult.totalRepayment = round2 (rangeDemoResult.loanAmount +
      rangeDemoResult.facilitationFee + rangeDemoResult.dailyFee + rangeDemoResult.penaltyFee) :=
  ⟨rfl, totalRepayment_identity [CreditConfig.range rangeDemo] rangeDemoInput rangeDemoResult rfl⟩

/-! ### Schedule shape lemmas -/

theorem buildScheduleAux_length (a : ℚ) (s ap : ℤ) (fees : List ℚ) (p : ℚ) :
    ∀ (n idx : ℕ) (dR pR : ℚ), (buildScheduleAux a s ap fees p n idx dR pR).length = n := by
  intro n
  induction n with
  | zero => intro idx dR pR; rfl
  | succ n ih =>
    intro idx dR pR
    simp only [buildScheduleAux, List.length_cons, ih]

theorem buildScheduleAux_date (a : ℚ) (s ap : ℤ) (fees : List ℚ) (p : ℚ) :
    ∀ (n idx : ℕ) (dR pR : ℚ) (i : ℕ), i < n →
      ((buildScheduleAux a s ap fees p n idx dR pR)[i]?).map RepaymentScheduleLine.date =
        some (s + ((idx + i : ℕ) : ℤ)) := by
  intro n
  induction n with
  | zero => intro idx dR pR i h; exact absurd h (Nat.not_lt_zero i)
  | succ n ih =>
    intro idx dR pR i h
    cases i with
    | zero => simp [buildScheduleAux]
    | succ i =>
      rw [buildScheduleAux]
      simp only [List.getElem?_cons_succ]
      rw [ih (idx + 1) _ _ i (by omega)]
      congr 2
      omega

theorem buildSchedule_length (a : ℚ) (s : ℤ) (n : ℕ) (ap : ℤ) (fees : List ℚ) (pt : ℚ) :
    (buildSchedule a s n ap fees pt).length = n := by
  unfold buildSchedule
  exact buildScheduleAux_length a s ap fees _ n 0 0 0

theorem buildSchedule_date (a : ℚ) (s : ℤ) (n : ℕ) (ap : ℤ) (fees : List ℚ) (pt : ℚ)
    (i : ℕ) (h : i < n) :
    ((buildSchedule a s n ap fees pt)[i]?).map RepaymentScheduleLine.date = some (s + (i : ℤ)) := by
  unfold buildSchedule
  have hd := buildScheduleAux_date a s ap fees
    (if 0 < max ((n : ℤ) - ap) 0 then pt / ((max ((n : ℤ) - ap) 0 : ℤ) : ℚ) else 0) n 0 0 0 i h
  simpa using hd

/-- C2: every accepted request's schedule has exactly `loanPeriodDays` lines,
`loanPeriodDays` is the inclusive day count from `startDate` to `endDate`
(a same-day loan has period 1), and the line at index `i` is dated
`startDate + i` days, hence in date order. -/
theorem schedule_length_and_dates (credits : List CreditConfig) (input : CreditCalculationInput)
    (r : CreditCalculationResult) (h : calculate credits input = .ok r) :
    r.schedule.length = r.loanPeriodDays ∧
    (r.loanPeriodDays : ℤ) = input.endDate - input.startDate + 1 ∧
    ∀ i : ℕ, i < r.loanPeriodDays →
      (r.schedule[i]?).map RepaymentScheduleLine.date = some (input.startDate + (i : ℤ)) := by
  obtain ⟨c, -, -, -, hdate, hcase⟩ := calculate_ok_elim h
  have hper : (((input.endDate - input.startDate + 1).toNat : ℤ)) =
      input.endDate - input.startDate + 1 := Int.toNat_of_nonneg (by omega)
  rcases hcase with ⟨rc, -, -, -, hr⟩ | ⟨tc, rng, -, -, hr⟩ <;> subst hr <;>
    exact ⟨buildSchedule_length _ _ _ _ _ _, hper, fun i hi => buildSchedule_date _ _ _ _ _ _ i hi⟩

/-- C2 witness: shape of the concrete 5-day schedule. -/
theorem schedule_length_and_dates_witness :
    rangeDemoResult.schedule.length = rangeDemoResult.loanPeriodDays ∧
    (rangeDemoResult.loanPeriodDays : ℤ) = rangeDemoInput.endDate - rangeDemoInput.startDate + 1 ∧
    ∀ i : ℕ, i < rangeDemoResult.loanPeriodDays →
      (rangeDemoResult.schedule[i]?).map RepaymentScheduleLine.date =
        some (rangeDemoInput.startDate + (i : ℤ)) :=
  schedule_length_and_dates [CreditConfig.range rangeDemo] rangeDemoInput rangeDemoResult rfl

/-! ### Error-path behaviour of `calculate` -/

/-- C8: `calculate` fails with the tagged error and returns no result for:
an unknown credit type; a non-positive loan amount; an amount above the
6,000,000 ceiling; a start date strictly after the end date. Each case is
stated at the validation stage the source reaches it (type lookup happens
first, then amount checks, then the date check). -/
theorem calculate_error_cases (credits : List CreditConfig) (input : CreditCalculationInput) :
    (credits.find? (fun c => c.type == input.creditType) = none →
      calculate credits input = .error .unsupportedCreditType) ∧
    (∀ c, credits.find? (fun c2 => c2.type == input.creditType) = some c →
      input.loanAmount ≤ 0 → calculate credits input = .error .invalidAmount) ∧
    (∀ c, credits.find? (fun c2 => c2.type == input.creditType) = some c →
      0 < input.loanAmount → MAX_LOAN_AMOUNT < input.loanAmount →
      calculate credits input = .error .amountTooLarge) ∧
    (∀ c, credits.find? (fun c2 => c2.type == input.creditType) = some c →
      0 < input.loanAmount → input.loanAmount ≤ MAX_LOAN_AMOUNT →
      input.endDate < input.startDate →
      calculate credits input = .error .invalidDateRange) := by
  refine ⟨fun h => ?_, fun c hc hle => ?_, fun c hc h0 hgt => ?_, fun c hc h0 hle hdate => ?_⟩
  · unfold calculate
    rw [h]
  · unfold calculate
    rw [hc]
    dsimp only
    rw [if_pos hle]
  · unfold calculate
    rw [hc]
    dsimp only
    rw [if_neg (not_le.mpr h0), if_pos hgt]
  · unfold calculate
    rw [hc]
    dsimp only
    rw [if_neg (not_le.mpr h0), if_neg (not_lt.mpr hle), if_pos hdate]

/-- C8 witness: the four rejections on concrete requests against the demo
catalog. -/
theorem calculate_error_cases_witness :
    calculate [CreditConfig.range rangeDemo]
      { creditType := "Nope", loanAmount := 1000, startDate := 0, endDate := 4 } =
      .error .unsupportedCreditType ∧
    calculate [CreditConfig.range rangeDemo]
      { creditType := "RangeDemo", loanAmount := 0, startDate := 0, endDate := 4 } =
      .error .invalidAmount ∧
    calculate [CreditConfig.range rangeDemo]
      { creditType := "RangeDemo", loanAmount := 7000000, startDate := 0, endDate := 4 } =
      .error .amountTooLarge ∧
    calculate [CreditConfig.range rangeDemo]
      { creditType := "RangeDemo", loanAmount := 1000, startDate := 5, endDate := 4 } =
      .error .invalidDateRange :=
  ⟨(calculate_error_cases _ _).1 rfl,
   (calculate_error_cases _ _).2.1 (.range rangeDemo) rfl (by norm_num),
   (calculate_error_cases _ _).2.2.1 (.range rangeDemo) rfl (by norm_num)
     (by unfold MAX_LOAN_AMOUNT; norm_num),
   (calculate_error_cases _ _).2.2.2 (.range rangeDemo) rfl (by norm_num)
     (by unfold MAX_LOAN_AMOUNT; norm_num) (by norm_num)⟩

/-! ### Penalty-free behaviour -/

theorem computePenaltyFee_allowed_ge (a : ℚ) (s e ap : ℤ) (pct : ℚ)
    (h : e - s + 1 ≤ ap) : computePenaltyFee a s e ap pct = 0 := by
  unfold computePenaltyFee
  rw [if_pos]
  omega

theorem buildScheduleAux_penalty_zero (a : ℚ) (s ap : ℤ) (fees : List ℚ) :
    ∀ (n idx : ℕ) (dR pR : ℚ) line,
      line ∈ buildScheduleAux a s ap fees 0 n idx dR pR → line.penaltyFee = 0 := by
  intro n
  induction n with
  | zero => intro idx dR pR line h; exact absurd h (List.not_mem_nil line)
  | succ n ih =>
    intro idx dR pR line h
    rw [buildScheduleAux] at h
    rcases List.mem_cons.mp h with h1 | h2
    · rw [h1]
      show round2 (if ap ≤ (idx : ℤ) then 0 else 0) = 0
      rw [ite_self]
      exact round2_zero
    · exact ih (idx + 1) _ _ line h2

theorem buildSchedule_penalty_zero_of_allowed_ge (a : ℚ) (s : ℤ) (n : ℕ) (ap : ℤ)
    (fees : List ℚ) (pt : ℚ) (hap : (n : ℤ) ≤ ap) :
    ∀ line ∈ buildSchedule a s n ap fees pt, line.penaltyFee = 0 := by
  unfold buildSchedule
  have h0 : max ((n : ℤ) - ap) 0 = 0 := max_eq_right (by omega)
  rw [h0]
  simp only [lt_irrefl, if_false]
  exact buildScheduleAux_penalty_zero a s ap fees n 0 0 0

/-- C9: a tiered product whose type name is absent from the fixed
allowed-period table falls back to the requested period itself, so every
accepted request yields a zero total penalty and zero penalty on every
schedule line. -/
theorem tiered_unmapped_never_penalized (credits : List CreditConfig)
    (input : CreditCalculationInput) (tc : TieredCreditConfig) (r : CreditCalculationResult)
    (h : calculate credits input = .ok r)
    (hfind : credits.find? (fun c => c.type == input.creditType) = some (.tiered tc))
    (hmap : tieredPaymentPeriod tc.type = none) :
    r.penaltyFee = 0 ∧ ∀ line ∈ r.schedule, line.penaltyFee = 0 := by
  obtain ⟨c, hfind2, -, -, hdate, hcase⟩ := calculate_ok_elim h
  rw [hfind] at hfind2
  have hc : c = CreditConfig.tiered tc := (Option.some_injective _ hfind2).symm
  subst hc
  have hn : (((input.endDate - input.startDate + 1).toNat : ℤ)) =
      input.endDate - input.startDate + 1 := Int.toNat_of_nonneg (by omega)
  rcases hcase with ⟨rc, hrc, -⟩ | ⟨tc2, rng, htc, hrng, hr⟩
  · exact absurd hrc (by simp)
  have htc2 : tc2 = tc := by
    injection htc with htc3
    exact htc3.symm
  subst htc2
  subst hr
  constructor
  · show computePenaltyFee _ _ _ _ _ = 0
    simp only [hmap, Option.getD_none]
    exact computePenaltyFee_allowed_ge _ _ _ _ _ (by omega)
  · intro line hline
    revert hline
    show line ∈ buildSchedule _ _ _ _ _ _ → _
    simp only [hmap, Option.getD_none]
    exact fun hline => buildSchedule_penalty_zero_of_allowed_ge _ _ _ _ _ _ (le_refl _) line hline

/-- A tiered product whose name is not in the allowed-period table. -/
def tieredDemoTier : Tier :=
  { amount := 100, facilitationFeePercent := 4, dailyFeePercent := 1, penaltyPercent := 2 }

/-- The demo tiered catalog entry. -/
def tieredDemo : TieredCreditConfig := { type := "TieredDemo", amounts := [tieredDemoTier] }

/-- A 40-day request against the unmapped tiered product. -/
def tieredDemoInput : CreditCalculationInput :=
  { creditType := "TieredDemo", loanAmount := 1000, startDate := 0, endDate := 39 }

/-- The result the engine produces for `tieredDemoInput`. -/
def tieredDemoResult : CreditCalculationResult :=
  calculateForTieredCredit 1000 0 39 40 tieredDemo tieredDemoTier

/-- C9 witness: the 40-day request against the unmapped product is accepted
and never penalized. -/
theorem tiered_unmapped_never_penalized_witness :
    calculate [CreditConfig.tiered tieredDemo] tieredDemoInput = .ok tieredDemoResult ∧
    tieredDemoResult.penaltyFee = 0 ∧
    ∀ line ∈ tieredDemoResult.schedule, line.penaltyFee = 0 :=
  ⟨rfl,
   tiered_unmapped_never_penalized [CreditConfig.tiered tieredDemo] tieredDemoInput tieredDemo
     tieredDemoResult rfl rfl rfl⟩

/-! ### Penalty formula (C4) -/

/-- Demo range product with a zero per-day penalty rate. -/
def rangeDemoP0 : RangeCreditConfig :=
  { rangeDemo with type := "RangeDemoP0", penaltyPercent := 0 }

/-- A 35-day request (5 days past the 30-day allowed window). -/
def rangeDemoP0Input : CreditCalculationInput :=
  { creditType := "RangeDemoP0", loanAmount := 1000, startDate := 0, endDate := 34 }

/-- The result the engine produces for `rangeDemoP0Input`. -/
def rangeDemoP0Result : CreditCalculationResult :=
  calculateForRangeCredit 1000 0 34 35 rangeDemoP0

/-- C4 counterexample: an accepted overdue request with
`penaltyPercent = 0` (permitted by the data model) has penalty `0`, not a
strictly positive penalty as the claim states. -/
theorem penalty_not_strictly_positive :
    calculate [CreditConfig.range rangeDemoP0] rangeDemoP0Input = .ok rangeDemoP0Result ∧
    rangeDemoP0Result.loanPeriodDays = 35 ∧
    rangeDemoP0.paymentPeriodDays = 30 ∧
    rangeDemoP0.penaltyPercent = 0 ∧
    ¬ 0 < rangeDemoP0Result.penaltyFee := by
  refine ⟨rfl, rfl, rfl, rfl, ?_⟩
  have h0 : rangeDemoP0Result.penaltyFee = 0 := by with_unfolding_all rfl
  rw [h0]
  exact lt_irrefl 0

/-- C4 (amended): the penalty is `0` whenever the requested period fits the
allowed period, and otherwise equals
`round2 (loanAmount * penaltyPercent * overdueDays / 100)` with
`overdueDays = endDate − allowedEndDate`; it is nonnegative, but not
strictly positive in general (`penaltyPercent = 0` or tiny products round
to zero). -/
theorem computePenaltyFee_spec (a : ℚ) (s e ap : ℤ) (pct : ℚ)
    (ha : 0 ≤ a) (hp : 0 ≤ pct) :
    (e - s + 1 ≤ ap → computePenaltyFee a s e ap pct = 0) ∧
    (ap < e - s + 1 →
      computePenaltyFee a s e ap pct =
        round2 (a * pct * ((e - (s + (ap - 1)) : ℤ) : ℚ) / 100) ∧
      0 ≤ computePenaltyFee a s e ap pct) := by
  constructor
  · exact computePenaltyFee_allowed_ge a s e ap pct
  · intro h
    have h2 : ¬ (e - (s + (ap - 1)) ≤ 0) := by omega
    unfold computePenaltyFee
    rw [if_neg (by omega : ¬ ¬ (s + (ap - 1) < e)), if_neg h2]
    have hcast : (0 : ℚ) ≤ (e : ℚ) - ((s : ℚ) + ((ap : ℚ) - 1)) := by
      have h3 : (0 : ℤ) ≤ e - (s + (ap - 1)) := by omega
      exact_mod_cast h3
    constructor
    · congr 1
      push_cast
      ring
    · exact round2_nonneg (div_nonneg (mul_nonneg (mul_nonneg ha hp) hcast) (by norm_num))

/-- C4 witness: scenario B's penalty, 5 days overdue at 2% on 1000. -/
theorem computePenaltyFee_spec_witness :
    computePenaltyFee 1000 0 34 30 2 =
      round2 (1000 * 2 * ((34 - (0 + (30 - 1)) : ℤ) : ℚ) / 100) ∧
    0 ≤ computePenaltyFee 1000 0 34 30 2 :=
  (computePenaltyFee_spec 1000 0 34 30 2 (by norm_num) (by norm_num)).2 (by norm_num)

/-! ### Tiered daily-fee rounding (C5) -/

theorem replicate_getD {α : Type} (x d : α) {n i : ℕ} (h : i < n) :
    (List.replicate n x).getD i d = x := by
  rw [List.getD_eq_getElem?_getD, List.getElem?_replicate, if_pos h]
  rfl

theorem buildScheduleAux_map_dailyFee (a : ℚ) (s ap : ℤ) (fees : List ℚ) (p : ℚ) :
    ∀ (n idx : ℕ) (dR pR : ℚ),
      (buildScheduleAux a s ap fees p n idx dR pR).map RepaymentScheduleLine.dailyFee =
        (List.range' idx n).map (fun i => round2 (fees.getD i 0)) := by
  intro n
  induction n with
  | zero => intro idx dR pR; rfl
  | succ n ih =>
    intro idx dR pR
    rw [buildScheduleAux, List.range'_succ]
    simp only [List.map_cons]
    rw [ih (idx + 1)]

theorem buildSchedule_map_dailyFee (a : ℚ) (s : ℤ) (n : ℕ) (ap : ℤ) (fees : List ℚ) (pt : ℚ) :
    (buildSchedule a s n ap fees pt).map RepaymentScheduleLine.dailyFee =
      (List.range' 0 n).map (fun i => round2 (fees.getD i 0)) := by
  unfold buildSchedule
  exact buildScheduleAux_map_dailyFee a s ap fees _ n 0 0 0

/-- The demo tiered request whose loan amount is not a 2-decimal multiple of
the rate: base per-day fee `10.004`. -/
def tieredRoundDemoInput : CreditCalculationInput :=
  { creditType := "TieredDemo", loanAmount := 5002/5, startDate := 0, endDate := 2 }

/-- The result the engine produces for `tieredRoundDemoInput`. -/
def tieredRoundDemoResult : CreditCalculationResult :=
  calculateForTieredCredit (5002/5) 0 2 3 tieredDemo tieredDemoTier

/-- C5 counterexample: for the accepted 3-day tiered request at amount
`1000.4`, the engine's total daily fee is `round2 (10.004 × 3) = 30.01`,
not the claimed round-per-day-then-round-total `round2 (3 × 10.00) = 30`. -/
theorem tiered_double_rounding_refuted :
    calculate [CreditConfig.tiered tieredDemo] tieredRoundDemoInput = .ok tieredRoundDemoResult ∧
    tieredRoundDemoResult.dailyFee ≠
      round2 ((List.replicate tieredRoundDemoResult.loanPeriodDays
        (round2 ((5002/5 : ℚ) * tieredDemoTier.dailyFeePercent / 100))).sum) := by
  refine ⟨by with_unfolding_all rfl, ?_⟩
  have h1 : tieredRoundDemoResult.dailyFee = 3001/100 := by with_unfolding_all rfl
  have h2 : round2 ((List.replicate tieredRoundDemoResult.loanPeriodDays
      (round2 ((5002/5 : ℚ) * tieredDemoTier.dailyFeePercent / 100))).sum) = 30 := by
    with_unfolding_all rfl
  rw [h1, h2]
  norm_num

/-- C5 (amended): for every accepted tiered request the total daily fee is
`round2 (baseDailyFee × loanPeriodDays)` computed from the **unrounded**
base `loanAmount × dailyFeePercent / 100`, while each schedule line's daily
fee is the individually rounded base; the total is not the rounded sum of
the rounded per-day values. -/
theorem tiered_dailyFee_single_rounding (credits : List CreditConfig)
    (input : CreditCalculationInput) (tc : TieredCreditConfig) (rng : TierRange)
    (r : CreditCalculationResult) (h : calculate credits input = .ok r)
    (hfind : credits.find? (fun c => c.type == input.creditType) = some (.tiered tc))
    (hrng : findTierRangeForAmount tc input.loanAmount = some rng) :
    r.dailyFee =
      round2 (input.loanAmount * rng.tier.dailyFeePercent / 100 * (r.loanPeriodDays : ℚ)) ∧
    r.schedule.map RepaymentScheduleLine.dailyFee =
      List.replicate r.loanPeriodDays
        (round2 (input.loanAmount * rng.tier.dailyFeePercent / 100)) := by
  obtain ⟨c, hfind2, -, -, -, hcase⟩ := calculate_ok_elim h
  rw [hfind] at hfind2
  have hc : c = CreditConfig.tiered tc := (Option.some_injective _ hfind2).symm
  subst hc
  rcases hcase with ⟨rc, hrc, -⟩ | ⟨tc2, rng2, htc, hrng2, hr⟩
  · exact absurd hrc (by simp)
  have htc2 : tc2 = tc := by
    injection htc with htc3
    exact htc3.symm
  subst htc2
  rw [hrng] at hrng2
  have hrng3 : rng = rng2 := Option.some_injective _ hrng2
  subst hrng3
  subst hr
  refine ⟨rfl, ?_⟩
  show (buildSchedule _ _ _ _ _ _).map RepaymentScheduleLine.dailyFee = _
  rw [buildSchedule_map_dailyFee]
  have hall : ∀ i ∈ List.range' 0 (input.endDate - input.startDate + 1).toNat,
      round2 ((List.replicate (input.endDate - input.startDate + 1).toNat
        (round2 (input.loanAmount * rng.tier.dailyFeePercent / 100))).getD i 0) =
      round2 (input.loanAmount * rng.tier.dailyFeePercent / 100) := by
    intro i hi
    have hi2 : i < (input.endDate - input.startDate + 1).toNat := by
      have h4 := List.mem_range'_1.mp hi
      omega
    rw [replicate_getD _ _ hi2, round2_idem]
  rw [List.map_congr_left hall, List.map_const', List.length_range']
  rfl

/-- C5 witness for the amended claim: the accepted demo tiered request has
total `round2 (10.004 × 3)` and three per-day lines of `10.00`. -/
theorem tiered_dailyFee_single_rounding_witness :
    tieredRoundDemoResult.dailyFee =
      round2 (tieredRoundDemoInput.loanAmount * tieredDemoTier.dailyFeePercent / 100 *
        (tieredRoundDemoResult.loanPeriodDays : ℚ)) ∧
    tieredRoundDemoResult.schedule.map RepaymentScheduleLine.dailyFee =
      List.replicate tieredRoundDemoResult.loanPeriodDays
        (round2 (tieredRoundDemoInput.loanAmount * tieredDemoTier.dailyFeePercent / 100)) := by
  have h := tiered_dailyFee_single_rounding [CreditConfig.tiered tieredDemo]
    tieredRoundDemoInput tieredDemo
    { tier := tieredDemoTier, min := 100, maxExclusive := none }
    tieredRoundDemoResult (by with_unfolding_all rfl) rfl (by with_unfolding_all rfl)
  exact h

/-! ### Tier resolver (C6, C7) -/

/-- The proposition behind `tierRangeMatches`: the amount lies in the
half-open interval of the range. -/
def containsAmount (r : TierRange) (a : ℚ) : Prop :=
  r.min ≤ a ∧ ∀ m, r.maxExclusive = some m → a < m

theorem tierRangeMatches_iff (a : ℚ) (r : TierRange) :
    tierRangeMatches a r = true ↔ containsAmount r a := by
  unfold tierRangeMatches containsAmount
  rcases hm : r.maxExclusive with _ | m <;> simp [hm]

/-- Ascending order on tiers by `amount`. -/
def tierLE (u v : Tier) : Prop := u.amount ≤ v.amount

theorem insertTier_mem (t : Tier) (l : List Tier) (x : Tier) :
    x ∈ insertTier t l ↔ x = t ∨ x ∈ l := by
  induction l with
  | nil => simp [insertTier]
  | cons u us ih =>
    unfold insertTier
    split_ifs with hle
    · rw [List.mem_cons, ih, List.mem_cons]
      tauto
    · rw [List.mem_cons]

theorem insertTier_sorted (t : Tier) (l : List Tier) (h : List.Sorted tierLE l) :
    List.Sorted tierLE (insertTier t l) := by
  induction l with
  | nil => simp [insertTier]
  | cons u us ih =>
    rw [List.sorted_cons] at h
    obtain ⟨hu, hus⟩ := h
    unfold insertTier
    split_ifs with hle
    · rw [List.sorted_cons]
      refine ⟨?_, ih hus⟩
      intro b hb
      rcases (insertTier_mem t us b).mp hb with hb1 | hb2
      · rw [hb1]
        exact hle
      · exact hu b hb2
    · rw [List.sorted_cons]
      refine ⟨?_, List.sorted_cons.mpr ⟨hu, hus⟩⟩
      intro b hb
      rcases List.mem_cons.mp hb with hb1 | hb2
      · rw [hb1]
        exact le_of_lt (lt_of_not_le hle)
      · exact le_trans (le_of_lt (lt_of_not_le hle)) (hu b hb2)

theorem sortTiers_sorted (l : List Tier) : List.Sorted tierLE (sortTiers l) := by
  have general : ∀ (l2 acc : List Tier), List.Sorted tierLE acc →
      List.Sorted tierLE (l2.foldl (fun acc2 t => insertTier t acc2) acc) := by
    intro l2
    induction l2 with
    | nil => intro acc h; exact h
    | cons t ts ih => intro acc h; exact ih _ (insertTier_sorted t acc h)
  exact general l [] List.sorted_nil

theorem buildTierRangesAux_min (l : List Tier) :
    ∀ r ∈ buildTierRangesAux l, r.min = r.tier.amount ∧ r.tier ∈ l := by
  induction l with
  | nil => intro r hr; exact absurd hr (List.not_mem_nil r)
  | cons t rest ih =>
    cases rest with
    | nil =>
      intro r hr
      rcases List.mem_singleton.mp hr with h1
      rw [h1]
      exact ⟨rfl, List.mem_singleton_self t⟩
    | cons u rest2 =>
      intro r hr
      rcases List.mem_cons.mp hr with h1 | h1
      · rw [h1]
        exact ⟨rfl, List.mem_cons_self t _⟩
      · obtain ⟨hmin, htier⟩ := ih r h1
        exact ⟨hmin, List.mem_cons_of_mem t htier⟩

theorem buildTierRangesAux_min_lower (u : Tier) (rest : List Tier)
    (hs : List.Sorted tierLE (u :: rest)) :
    ∀ r ∈ buildTierRangesAux (u :: rest), u.amount ≤ r.min := by
  intro r hr
  obtain ⟨hmin, htier⟩ := buildTierRangesAux_min (u :: rest) r hr
  rw [hmin]
  rcases List.mem_cons.mp htier with h1 | h2
  · rw [h1]
  · exact List.rel_of_sorted_cons hs _ h2

theorem ranges_disjoint (l : List Tier) (hs : List.Sorted tierLE l) (a : ℚ) :
    ∀ r1 ∈ buildTierRangesAux l, ∀ r2 ∈ buildTierRangesAux l,
      containsAmount r1 a → containsAmount r2 a → r1 = r2 := by
  induction l with
  | nil => intro r1 hr1; exact absurd hr1 (List.not_mem_nil r1)
  | cons t rest ih =>
    cases rest with
    | nil =>
      intro r1 hr1 r2 hr2 _ _
      rw [List.mem_singleton.mp hr1, List.mem_singleton.mp hr2]
    | cons u rest2 =>
      intro r1 hr1 r2 hr2 hc1 hc2
      have hs2 : List.Sorted tierLE (u :: rest2) := (List.sorted_cons.mp hs).2
      rcases List.mem_cons.mp hr1 with h1 | h1 <;> rcases List.mem_cons.mp hr2 with h2 | h2
      · rw [h1, h2]
      · exfalso
        rw [h1] at hc1
        have ha1 : a < u.amount := hc1.2 u.amount rfl
        have ha2 : u.amount ≤ r2.min := buildTierRangesAux_min_lower u rest2 hs2 r2 h2
        have ha3 : r2.min ≤ a := hc2.1
        linarith
      · exfalso
        rw [h2] at hc2
        have ha1 : a < u.amount := hc2.2 u.amount rfl
        have ha2 : u.amount ≤ r1.min := buildTierRangesAux_min_lower u rest2 hs2 r1 h1
        have ha3 : r1.min ≤ a := hc1.1
        linarith
      · exact ih hs2 r1 h1 r2 h2 hc1 hc2

theorem ranges_bound (l : List Tier) (hs : List.Sorted tierLE l) :
    ∀ r ∈ buildTierRangesAux l, ∀ t ∈ buildTierRangesAux l, r.min < t.min →
      ∃ m, r.maxExclusive = some m ∧ m ≤ t.min := by
  induction l with
  | nil => intro r hr; exact absurd hr (List.not_mem_nil r)
  | cons x rest ih =>
    cases rest with
    | nil =>
      intro r hr t ht hlt
      rw [List.mem_singleton.mp hr, List.mem_singleton.mp ht] at hlt
      exact absurd hlt (lt_irrefl _)
    | cons u rest2 =>
      intro r hr t ht hlt
      have hs2 : List.Sorted tierLE (u :: rest2) := (List.sorted_cons.mp hs).2
      rcases List.mem_cons.mp hr with h1 | h1
      · refine ⟨u.amount, by rw [h1], ?_⟩
        rcases List.mem_cons.mp ht with h2 | h2
        · exfalso
          rw [h1, h2] at hlt
          exact lt_irrefl _ hlt
        · exact buildTierRangesAux_min_lower u rest2 hs2 t h2
      · rcases List.mem_cons.mp ht with h2 | h2
        · exfalso
          have hxu : x.amount ≤ u.amount :=
            (List.sorted_cons.mp hs).1 u (List.mem_cons_self u rest2)
          have h3 : u.amount ≤ r.min := buildTierRangesAux_min_lower u rest2 hs2 r h1
          have h4 : r.min < x.amount := by
            rw [h2] at hlt
            simpa using hlt
          linarith
        · exact ih hs2 r h1 t h2 hlt

/-- C6: tier resolution is by half-open intervals `[tier.amount, next.amount)`
(last unbounded): two amounts that both resolve and lie in one interval
resolve to the same range, and an amount equal to some range's lower bound
resolves to a range whose lower bound is that amount (the upper tier), never
the one below. -/
theorem tier_resolution_half_open (credit : TieredCreditConfig) :
    (∀ a b ra rb r, a < b →
      findTierRangeForAmount credit a = some ra →
      findTierRangeForAmount credit b = some rb →
      r ∈ buildTierRanges credit → containsAmount r a → containsAmount r b →
      ra = rb) ∧
    (∀ a ra t, findTierRangeForAmount credit a = some ra →
      t ∈ buildTierRanges credit → t.min = a → ra.min = a) := by
  have hs : List.Sorted tierLE (sortTiers credit.amounts) := sortTiers_sorted _
  constructor
  · intro a b ra rb r hab hfa hfb hr hca hcb
    have hmema : ra ∈ buildTierRanges credit := List.mem_of_find?_eq_some hfa
    have hmemb : rb ∈ buildTierRanges credit := List.mem_of_find?_eq_some hfb
    have hconta : containsAmount ra a := (tierRangeMatches_iff a ra).mp (List.find?_some hfa)
    have hcontb : containsAmount rb b := (tierRangeMatches_iff b rb).mp (List.find?_some hfb)
    have hra : ra = r := ranges_disjoint _ hs a ra hmema r hr hconta hca
    have hrb : rb = r := ranges_disjoint _ hs b rb hmemb r hr hcontb hcb
    rw [hra, hrb]
  · intro a ra t hfa ht hta
    have hmema : ra ∈ buildTierRanges credit := List.mem_of_find?_eq_some hfa
    have hconta : containsAmount ra a := (tierRangeMatches_iff a ra).mp (List.find?_some hfa)
    by_contra hne
    have hlt : ra.min < a := lt_of_le_of_ne hconta.1 hne
    rw [← hta] at hlt
    obtain ⟨m, hm, hmle⟩ := ranges_bound _ hs ra hmema t ht hlt
    have hma : a < m := hconta.2 m hm
    rw [hta] at hmle
    linarith

/-- Two-tier demo product shaped like the spec's scenario C. -/
def tierLow : Tier :=
  { amount := 500, facilitationFeePercent := 4, dailyFeePercent := 1/2, penaltyPercent := 1 }

/-- The upper tier, starting at 2000. -/
def tierHigh : Tier :=
  { amount := 2000, facilitationFeePercent := 3, dailyFeePercent := 2/5, penaltyPercent := 1 }

/-- The tiered demo product with two tiers. -/
def tieredTwoDemo : TieredCreditConfig :=
  { type := "TieredTwoDemo", amounts := [tierLow, tierHigh] }

/-- The range the resolver builds for `tierLow`. -/
def lowRange : TierRange := { tier := tierLow, min := 500, maxExclusive := some 2000 }

/-- The range the resolver builds for `tierHigh`. -/
def highRange : TierRange := { tier := tierHigh, min := 2000, maxExclusive := none }

/-- C6 witness: 600 and 1800 share the `[500, 2000)` interval and resolve to
the same range, and the boundary amount 2000 resolves to the upper tier. -/
theorem tier_resolution_half_open_witness :
    lowRange = lowRange ∧
    (findTierRangeForAmount tieredTwoDemo 2000 = some highRange ∧ highRange.min = 2000) := by
  have hranges : buildTierRanges tieredTwoDemo = [lowRange, highRange] := by
    with_unfolding_all rfl
  have hf600 : findTierRangeForAmount tieredTwoDemo 600 = some lowRange := by
    with_unfolding_all rfl
  have hf1800 : findTierRangeForAmount tieredTwoDemo 1800 = some lowRange := by
    with_unfolding_all rfl
  have hf2000 : findTierRangeForAmount tieredTwoDemo 2000 = some highRange := by
    with_unfolding_all rfl
  have hmemLow : lowRange ∈ buildTierRanges tieredTwoDemo := by
    rw [hranges]
    exact List.mem_cons_self _ _
  have hmemHigh : highRange ∈ buildTierRanges tieredTwoDemo := by
    rw [hranges]
    exact List.mem_cons_of_mem _ (List.mem_cons_self _ _)
  have hcont600 : containsAmount lowRange 600 := by
    refine ⟨by norm_num [lowRange], ?_⟩
    intro m hm
    cases hm
    norm_num
  have hcont1800 : containsAmount lowRange 1800 := by
    refine ⟨by norm_num [lowRange], ?_⟩
    intro m hm
    cases hm
    norm_num
  refine ⟨?_, hf2000, ?_⟩
  · exact (tier_resolution_half_open tieredTwoDemo).1 600 1800 lowRange lowRange lowRange
      (by norm_num) hf600 hf1800 hmemLow hcont600 hcont1800
  · exact (tier_resolution_half_open tieredTwoDemo).2 2000 highRange highRange
      hf2000 hmemHigh rfl

/-! ### Duplicate tier amounts (C7) -/

/-- First of two duplicate tiers at amount 100. -/
def dupTierA : Tier :=
  { amount := 100, facilitationFeePercent := 1, dailyFeePercent := 1, penaltyPercent := 1 }

/-- Second duplicate tier, distinguishable by its facilitation fee. -/
def dupTierB : Tier :=
  { amount := 100, facilitationFeePercent := 2, dailyFeePercent := 1, penaltyPercent := 1 }

/-- A tiered product with duplicate tier amounts (a data error). -/
def dupDemo : TieredCreditConfig := { type := "DupDemo", amounts := [dupTierA, dupTierB] }

/-- C7 counterexample: with two tiers of equal amount, the stable sort keeps
their order, yet an amount in the shared interval resolves to the **second**
duplicate, not the first: the first duplicate's half-open interval
`[100, 100)` is empty. -/
theorem tier_duplicate_first_refuted :
    sortTiers [dupTierA, dupTierB] = [dupTierA, dupTierB] ∧
    (findTierRangeForAmount dupDemo 150).map TierRange.tier = some dupTierB ∧
    dupTierB ≠ dupTierA := by
  refine ⟨by with_unfolding_all rfl, by with_unfolding_all rfl, ?_⟩
  intro h
  have h2 : dupTierB.facilitationFeePercent = dupTierA.facilitationFeePercent := by rw [h]
  norm_num [dupTierA, dupTierB] at h2

theorem sortTiers_mem (l : List Tier) (x : Tier) : x ∈ sortTiers l ↔ x ∈ l := by
  have general : ∀ (l2 acc : List Tier),
      x ∈ l2.foldl (fun acc2 t => insertTier t acc2) acc ↔ x ∈ acc ∨ x ∈ l2 := by
    intro l2
    induction l2 with
    | nil => intro acc; simp
    | cons t ts ih =>
      intro acc
      rw [List.foldl_cons, ih, insertTier_mem, List.mem_cons]
      tauto
  unfold sortTiers
  rw [general l []]
  simp

theorem buildTierRangesAux_find_exists (l : List Tier) (hs : List.Sorted tierLE l) (a : ℚ)
    (hex : ∃ t ∈ l, t.amount ≤ a) :
    ∃ r, (buildTierRangesAux l).find? (tierRangeMatches a) = some r := by
  induction l with
  | nil =>
    obtain ⟨t, ht, -⟩ := hex
    exact absurd ht (List.not_mem_nil t)
  | cons t rest ih =>
    cases rest with
    | nil =>
      obtain ⟨w, hw, hwa⟩ := hex
      have hta : t.amount ≤ a := (List.mem_singleton.mp hw) ▸ hwa
      refine ⟨{ tier := t, min := t.amount, maxExclusive := none }, ?_⟩
      show List.find? (tierRangeMatches a) [{ tier := t, min := t.amount, maxExclusive := none }] =
        some { tier := t, min := t.amount, maxExclusive := none }
      apply List.find?_cons_of_pos
      show (decide (t.amount ≤ a) && true) = true
      simp [hta]
    | cons u rest2 =>
      have hs2 : List.Sorted tierLE (u :: rest2) := (List.sorted_cons.mp hs).2
      by_cases hu : a < u.amount
      · obtain ⟨w, hw, hwa⟩ := hex
        have hta : t.amount ≤ a := by
          rcases List.mem_cons.mp hw with h1 | h2
          · rw [← h1]
            exact hwa
          · exfalso
            have huw : u.amount ≤ w.amount := by
              rcases List.mem_cons.mp h2 with h3 | h4
              · rw [h3]
              · exact List.rel_of_sorted_cons hs2 w h4
            linarith
        refine ⟨{ tier := t, min := t.amount, maxExclusive := some u.amount }, ?_⟩
        show List.find? (tierRangeMatches a)
            ({ tier := t, min := t.amount, maxExclusive := some u.amount } ::
              buildTierRangesAux (u :: rest2)) = _
        apply List.find?_cons_of_pos
        show (decide (t.amount ≤ a) && decide (a < u.amount)) = true
        simp [hta, hu]
      · obtain ⟨r, hr⟩ := ih hs2 ⟨u, List.mem_cons_self u rest2, not_lt.mp hu⟩
        refine ⟨r, ?_⟩
        show List.find? (tierRangeMatches a)
            ({ tier := t, min := t.amount, maxExclusive := some u.amount } ::
              buildTierRangesAux (u :: rest2)) = some r
        rw [List.find?_cons_of_neg, hr]
        show ¬ (decide (t.amount ≤ a) && decide (a < u.amount)) = true
        simp [hu]

theorem buildTierRangesAux_maxEx_ge (l : List Tier) (hs : List.Sorted tierLE l) :
    ∀ r ∈ buildTierRangesAux l, ∀ m, r.maxExclusive = some m → r.min ≤ m := by
  induction l with
  | nil => intro r hr; exact absurd hr (List.not_mem_nil r)
  | cons t rest ih =>
    cases rest with
    | nil =>
      intro r hr m hm
      rw [List.mem_singleton.mp hr] at hm
      simp at hm
    | cons u rest2 =>
      intro r hr m hm
      have hs2 : List.Sorted tierLE (u :: rest2) := (List.sorted_cons.mp hs).2
      rcases List.mem_cons.mp hr with h1 | h1
      · rw [h1] at hm ⊢
        simp only [Option.some.injEq] at hm
        show t.amount ≤ m
        rw [← hm]
        exact (List.sorted_cons.mp hs).1 u (List.mem_cons_self u rest2)
      · exact ih hs2 r h1 m hm

/-- C7 (amended): for **any** tiered product — duplicates possibly sitting
among other tiers — the resolver never crashes: it returns some range
whenever any tier amount is at or below the request. Any returned range's
half-open interval contains the amount, and every other built range that
shares its lower bound has the empty interval `[amount, amount)`; hence
among duplicate-amount tiers the resolver picks the **last** of the
stable-sorted duplicates, the only one whose interval is inhabited. -/
theorem tier_duplicate_resolves_last (credit : TieredCreditConfig) (a : ℚ) :
    ((∃ t ∈ credit.amounts, t.amount ≤ a) →
      ∃ r, findTierRangeForAmount credit a = some r) ∧
    (∀ r, findTierRangeForAmount credit a = some r →
      containsAmount r a ∧
      ∀ t ∈ buildTierRanges credit, t.min = r.min →
        t = r ∨ t.maxExclusive = some t.min) := by
  have hs : List.Sorted tierLE (sortTiers credit.amounts) := sortTiers_sorted _
  constructor
  · intro hex
    obtain ⟨w, hw, hwa⟩ := hex
    exact buildTierRangesAux_find_exists (sortTiers credit.amounts) hs a
      ⟨w, (sortTiers_mem _ w).mpr hw, hwa⟩
  · intro r hr
    have hmem : r ∈ buildTierRanges credit := List.mem_of_find?_eq_some hr
    have hcont : containsAmount r a := (tierRangeMatches_iff a r).mp (List.find?_some hr)
    refine ⟨hcont, ?_⟩
    intro t ht htmin
    by_cases hemp : t.maxExclusive = some t.min
    · exact Or.inr hemp
    · left
      have hcr : containsAmount r r.min := by
        refine ⟨le_refl _, ?_⟩
        intro m hm
        have h1 := hcont.2 m hm
        have h2 := hcont.1
        linarith
      have hct : containsAmount t r.min := by
        refine ⟨le_of_eq htmin, ?_⟩
        intro m hm
        have h1 : t.min ≤ m := buildTierRangesAux_maxEx_ge _ hs t ht m hm
        have h2 : t.min ≠ m := by
          intro he
          apply hemp
          rw [hm, he]
        rw [← htmin]
        exact lt_of_le_of_ne h1 h2
      exact ranges_disjoint _ hs r.min t ht r hmem hct hcr

/-- Third, non-duplicate tier at amount 500. -/
def dupTierC : Tier :=
  { amount := 500, facilitationFeePercent := 3, dailyFeePercent := 1, penaltyPercent := 1 }

/-- A tiered product with duplicate tiers sitting among another tier. -/
def dupMixedDemo : TieredCreditConfig :=
  { type := "DupMixedDemo", amounts := [dupTierA, dupTierB, dupTierC] }

/-- The range the resolver builds for the second duplicate. -/
def dupRangeB : TierRange := { tier := dupTierB, min := 100, maxExclusive := some 500 }

/-- C7 witness: against the mixed catalog `[100, 100, 500]`, amount 150
resolves to the second duplicate's range, it contains 150, and every other
range at min 100 has an empty interval. -/
theorem tier_duplicate_resolves_last_witness :
    (∃ r, findTierRangeForAmount dupMixedDemo 150 = some r) ∧
    (containsAmount dupRangeB 150 ∧
      ∀ t ∈ buildTierRanges dupMixedDemo, t.min = dupRangeB.min →
        t = dupRangeB ∨ t.maxExclusive = some t.min) ∧
    (findTierRangeForAmount dupMixedDemo 150).map TierRange.tier = some dupTierB := by
  have hfind : findTierRangeForAmount dupMixedDemo 150 = some dupRangeB := by
    with_unfolding_all rfl
  refine ⟨?_, ?_, by rw [hfind]; rfl⟩
  · exact (tier_duplicate_resolves_last dupMixedDemo 150).1
      ⟨dupTierA, List.mem_cons_self _ _, by norm_num [dupTierA]⟩
  · exact (tier_duplicate_resolves_last dupMixedDemo 150).2 dupRangeB hfind

/-! ### Range daily-fee loop lemmas (C3, C10) -/

theorem dayFeeRaw_nonneg (base : ℚ) (cap : Option ℚ) (acc : ℚ) (hb : 0 ≤ base) :
    0 ≤ dayFeeRaw base cap acc := by
  unfold dayFeeRaw
  cases cap with
  | none => exact hb
  | some c => exact le_min hb (le_max_right _ _)

theorem dayFeeRaw_anti (base : ℚ) (cap : Option ℚ) {acc acc2 : ℚ} (h : acc ≤ acc2) :
    dayFeeRaw base cap acc2 ≤ dayFeeRaw base cap acc := by
  unfold dayFeeRaw
  cases cap with
  | none => exact le_refl base
  | some c => exact min_le_min (le_refl base) (max_le_max (by linarith) (le_refl 0))

theorem dayFeeRaw_base_zero (cap : Option ℚ) (acc : ℚ) : dayFeeRaw 0 cap acc = 0 := by
  unfold dayFeeRaw
  cases cap with
  | none => rfl
  | some c => exact min_eq_left (le_max_right _ _)

theorem dayFeeRaw_some (base c acc : ℚ) :
    dayFeeRaw base (some c) acc = min base (max (c - acc) 0) := rfl

theorem rangeFeeLoop_getD_bound (base : ℚ) (cap : Option ℚ) (hb : 0 ≤ base) :
    ∀ (n : ℕ) (acc : ℚ) (k : ℕ),
      (rangeFeeLoop base cap n acc).getD k 0 ≤ round2 (dayFeeRaw base cap acc) ∧
      0 ≤ (rangeFeeLoop base cap n acc).getD k 0 := by
  intro n
  induction n with
  | zero =>
    intro acc k
    exact ⟨round2_nonneg (dayFeeRaw_nonneg base cap acc hb), le_refl 0⟩
  | succ n ih =>
    intro acc k
    rw [rangeFeeLoop]
    split_ifs with h0
    · cases k with
      | zero => exact ⟨round2_nonneg (dayFeeRaw_nonneg base cap acc hb), le_refl 0⟩
      | succ k => exact ih acc k
    · cases k with
      | zero => exact ⟨le_refl _, round2_nonneg (dayFeeRaw_nonneg base cap acc hb)⟩
      | succ k =>
        have h1 := ih (acc + dayFeeRaw base cap acc) k
        refine ⟨le_trans h1.1 (round2_mono (dayFeeRaw_anti base cap ?_)), h1.2⟩
        have := dayFeeRaw_nonneg base cap acc hb
        linarith

theorem rangeFeeLoop_getD_anti (base : ℚ) (cap : Option ℚ) (hb : 0 ≤ base) :
    ∀ (n : ℕ) (acc : ℚ) (i j : ℕ), i ≤ j →
      (rangeFeeLoop base cap n acc).getD j 0 ≤ (rangeFeeLoop base cap n acc).getD i 0 := by
  intro n
  induction n with
  | zero => intro acc i j _; exact le_refl _
  | succ n ih =>
    intro acc i j hij
    rw [rangeFeeLoop]
    split_ifs with h0
    · cases i with
      | zero =>
        cases j with
        | zero => exact le_refl _
        | succ j =>
          show (rangeFeeLoop base cap n acc).getD j 0 ≤ 0
          have h1 := (rangeFeeLoop_getD_bound base cap hb n acc j).1
          rw [h0] at h1 ⊢
          rw [dayFeeRaw_base_zero, round2_zero] at h1
          exact h1
      | succ i =>
        cases j with
        | zero => exact absurd hij (by omega)
        | succ j => exact ih acc i j (by omega)
    · cases i with
      | zero =>
        cases j with
        | zero => exact le_refl _
        | succ j =>
          show (rangeFeeLoop base cap n (acc + dayFeeRaw base cap acc)).getD j 0 ≤
            round2 (dayFeeRaw base cap acc)
          have h1 := (rangeFeeLoop_getD_bound base cap hb n (acc + dayFeeRaw base cap acc) j).1
          refine le_trans h1 (round2_mono (dayFeeRaw_anti base cap ?_))
          have := dayFeeRaw_nonneg base cap acc hb
          linarith
      | succ i =>
        cases j with
        | zero => exact absurd hij (by omega)
        | succ j => exact ih (acc + dayFeeRaw base cap acc) i j (by omega)

theorem rangeFeeLoop_sum_le (base c : ℚ) (hb : 0 ≤ base) :
    ∀ (n : ℕ) (acc : ℚ), acc ≤ c →
      (rangeFeeLoop base (some c) n acc).sum ≤ (c - acc) + n * (1/200) := by
  intro n
  induction n with
  | zero =>
    intro acc hacc
    simp only [rangeFeeLoop, List.sum_nil]
    push_cast
    linarith
  | succ n ih =>
    intro acc hacc
    rw [rangeFeeLoop]
    split_ifs with h0
    · rw [List.sum_cons]
      have h1 := ih acc hacc
      push_cast
      push_cast at h1
      linarith
    · rw [List.sum_cons]
      have hraw : dayFeeRaw base (some c) acc ≤ c - acc := by
        rw [dayFeeRaw_some, max_eq_left (by linarith : (0:ℚ) ≤ c - acc)]
        exact min_le_right _ _
      have hraw0 : 0 ≤ dayFeeRaw base (some c) acc := dayFeeRaw_nonneg base (some c) acc hb
      have h1 := ih (acc + dayFeeRaw base (some c) acc) (by linarith)
      have h2 := round2_le (dayFeeRaw base (some c) acc)
      push_cast
      push_cast at h1
      linarith

theorem rangeFeeLoop_uncapped (base c : ℚ) (hb : 0 ≤ base) :
    ∀ (n : ℕ) (acc : ℚ), acc + base * n ≤ c →
      rangeFeeLoop base (some c) n acc = rangeFeeLoop base none n acc := by
  intro n
  induction n with
  | zero => intro acc _; rfl
  | succ n ih =>
    intro acc hacc
    have hncast : (0 : ℚ) ≤ (n : ℚ) := by positivity
    have hcast : acc + base * ((n : ℚ) + 1) ≤ c := by
      push_cast at hacc
      linarith
    have hbn : 0 ≤ base * (n : ℚ) := mul_nonneg hb hncast
    have hside : acc + base * (n : ℚ) ≤ c := by nlinarith
    rw [rangeFeeLoop, rangeFeeLoop]
    split_ifs with h0
    · rw [ih acc hside]
    · have hbase : base ≤ c - acc := by nlinarith
      have hraw : dayFeeRaw base (some c) acc = base := by
        rw [dayFeeRaw_some, max_eq_left (by linarith : (0:ℚ) ≤ c - acc), min_eq_left hbase]
      have hrawn : dayFeeRaw base none acc = base := rfl
      rw [hraw, hrawn, ih (acc + base) (by linarith)]

theorem rangeFeeLoop_capped_out (base c : ℚ) (hb : 0 ≤ base) :
    ∀ (m : ℕ) (acc : ℚ), c ≤ acc →
      rangeFeeLoop base (some c) m acc = List.replicate m 0 := by
  intro m
  induction m with
  | zero => intro acc _; rfl
  | succ m ih =>
    intro acc hacc
    rw [rangeFeeLoop, List.replicate_succ]
    split_ifs with h0
    · rw [ih acc hacc]
    · have hraw : dayFeeRaw base (some c) acc = 0 := by
        rw [dayFeeRaw_some, max_eq_right (by linarith : c - acc ≤ 0), min_eq_right hb]
      rw [hraw, round2_zero, add_zero, ih acc hacc]

/-- Demo range product whose cap is present but zero: JS truthiness
disables the cap entirely. -/
def rangeDemoCap0 : RangeCreditConfig :=
  { rangeDemo with type := "RangeDemoCap0", dailyFeeMaxPercent := some 0 }

/-- A one-day request against the zero-cap product. -/
def rangeDemoCap0Input : CreditCalculationInput :=
  { creditType := "RangeDemoCap0", loanAmount := 1000, startDate := 0, endDate := 0 }

/-- The result the engine produces for `rangeDemoCap0Input`. -/
def rangeDemoCap0Result : CreditCalculationResult :=
  calculateForRangeCredit 1000 0 0 1 rangeDemoCap0

/-- C3 counterexample: `dailyFeeMaxPercent` present with value `0` is falsy
in the source's conditional, so the loop runs uncapped and the accepted
one-day request collects a daily fee of 10, far above the claimed cap
`1000 × 0 / 100 = 0` plus any rounding tolerance. -/
theorem range_cap_present_zero_refuted :
    calculate [CreditConfig.range rangeDemoCap0] rangeDemoCap0Input = .ok rangeDemoCap0Result ∧
    rangeDemoCap0.dailyFeeMaxPercent = some 0 ∧
    rangeDemoCap0Result.dailyFee = 10 ∧
    ¬ rangeDemoCap0Result.dailyFee ≤ 1000 * 0 / 100 + 1 * (1/200) := by
  have h10 : rangeDemoCap0Result.dailyFee = 10 := by with_unfolding_all rfl
  refine ⟨rfl, rfl, h10, ?_⟩
  rw [h10]
  norm_num

/-- C3 (amended, cap percent present **and positive**): the rounded per-day
fees sum to at most the cap plus `n/200` rounding tolerance; when the
uncapped total `baseDailyFee × n` fits under the cap the per-day fee list
equals the uncapped product's list; and once the running accumulator
reaches the cap every remaining day's fee is zero. -/
theorem range_cap_invariant (loanAmount : ℚ) (credit : RangeCreditConfig) (n : ℕ) (p : ℚ)
    (hp : credit.dailyFeeMaxPercent = some p) (hpp : 0 < p) (hl : 0 < loanAmount) :
    (rangeDailyFees loanAmount credit n).sum ≤
      loanAmount * p / 100 + (n : ℚ) * (1/200) ∧
    (loanAmount * credit.dailyFeePercent / 100 * (n : ℚ) ≤ loanAmount * p / 100 →
      rangeDailyFees loanAmount credit n =
        rangeDailyFees loanAmount { credit with dailyFeeMaxPercent := none } n) ∧
    (∀ (m : ℕ) (acc : ℚ), loanAmount * p / 100 ≤ acc →
      rangeFeeLoop (rangeBaseDailyFee loanAmount credit)
        (some (loanAmount * p / 100)) m acc = List.replicate m 0) := by
  have hcap : 0 ≤ loanAmount * p / 100 :=
    div_nonneg (mul_nonneg hl.le hpp.le) (by norm_num)
  have hb : 0 ≤ rangeBaseDailyFee loanAmount credit := by
    unfold rangeBaseDailyFee
    split_ifs with hd
    · exact div_nonneg (mul_nonneg hl.le hd.le) (by norm_num)
    · exact le_refl 0
  have hcapeq : rangeDailyFeeCap loanAmount credit = some (loanAmount * p / 100) := by
    unfold rangeDailyFeeCap
    rw [hp]
    dsimp only
    rw [if_neg (ne_of_gt hpp)]
  refine ⟨?_, ?_, ?_⟩
  · unfold rangeDailyFees
    rw [hcapeq]
    have h1 := rangeFeeLoop_sum_le (rangeBaseDailyFee loanAmount credit)
      (loanAmount * p / 100) hb n 0 hcap
    linarith
  · intro hfit
    unfold rangeDailyFees
    rw [hcapeq]
    have hbase : 0 + rangeBaseDailyFee loanAmount credit * (n : ℚ) ≤ loanAmount * p / 100 := by
      unfold rangeBaseDailyFee
      split_ifs with hd
      · linarith
      · simpa using hcap
    rw [rangeFeeLoop_uncapped _ _ hb n 0 hbase]
    rfl
  · intro m acc hacc
    exact rangeFeeLoop_capped_out _ _ hb m acc hacc

/-- Demo capped range product: 3% aggregate cap, as in spec scenario B. -/
def rangeDemoCap : RangeCreditConfig :=
  { rangeDemo with type := "RangeDemoCap", dailyFeeMaxPercent := some 3 }

/-- C3 witness: the amended invariant at amount 1000, cap 3%, 35 days. -/
theorem range_cap_invariant_witness :
    (rangeDailyFees 1000 rangeDemoCap 35).sum ≤ 1000 * 3 / 100 + (35 : ℚ) * (1/200) ∧
    (1000 * rangeDemoCap.dailyFeePercent / 100 * (35 : ℚ) ≤ 1000 * 3 / 100 →
      rangeDailyFees 1000 rangeDemoCap 35 =
        rangeDailyFees 1000 { rangeDemoCap with dailyFeeMaxPercent := none } 35) ∧
    (∀ (m : ℕ) (acc : ℚ), 1000 * 3 / 100 ≤ acc →
      rangeFeeLoop (rangeBaseDailyFee 1000 rangeDemoCap) (some (1000 * 3 / 100)) m acc =
        List.replicate m 0) :=
  range_cap_invariant 1000 rangeDemoCap 35 3 rfl (by norm_num) (by norm_num)

/-- C10: the per-day daily-fee sequence emitted into a range-credit schedule
is monotonically non-increasing: each day's fee is
`min(baseDailyFee, remaining cap)` rounded, and the remaining cap only
shrinks as the accumulator grows. -/
theorem range_schedule_dailyFee_antitone (loanAmount : ℚ) (s e : ℤ) (n : ℕ)
    (credit : RangeCreditConfig) (h : 0 ≤ loanAmount) :
    ((calculateForRangeCredit loanAmount s e n credit).schedule.map
      RepaymentScheduleLine.dailyFee).Sorted (fun x y => y ≤ x) := by
  have hb : 0 ≤ rangeBaseDailyFee loanAmount credit := by
    unfold rangeBaseDailyFee
    split_ifs with hd
    · exact div_nonneg (mul_nonneg h hd.le) (by norm_num)
    · exact le_refl 0
  show ((buildSchedule _ _ _ _ _ _).map RepaymentScheduleLine.dailyFee).Sorted _
  rw [buildSchedule_map_dailyFee]
  have hp : (List.range' 0 n).Pairwise (· < ·) := List.pairwise_lt_range' 0 n 1
  unfold List.Sorted
  rw [List.pairwise_map]
  refine hp.imp ?_
  intro i j hij
  exact round2_mono (rangeFeeLoop_getD_anti _ _ hb n 0 i j (le_of_lt hij))

/-- C10 witness: the capped 35-day schedule's fee column is non-increasing. -/
theorem range_schedule_dailyFee_antitone_witness :
    ((calculateForRangeCredit 1000 0 34 35 rangeDemoCap).schedule.map
      RepaymentScheduleLine.dailyFee).Sorted (fun x y => y ≤ x) :=
  range_schedule_dailyFee_antitone 1000 0 34 35 rangeDemoCap (by norm_num)

end TelebirrCredit
